import Mathlib

/-!
# ORAS command-line options: annotation loading, manifest export, repository listing

A shallow embedding of

* `cmd/oras/internal/option/packer.go` (`Packer`, `ExportManifest`,
  `LoadManifestAnnotations`, `decodeJSON`, `parseAnnotationFlags`), and
* `cmd/oras/repository/list.go` (`listRepository`),

followed by theorems about them.

Conventions of the embedding.

* A Go `string` is a Lean `String` (a sequence of Unicode code points).  Every
  string operation used by the source (`SplitN` on `"="`, `TrimSpace`) acts on
  whole code points of well-formed UTF-8 text, so nothing is lost as long as the
  input is well-formed UTF-8.
* A non-nil Go `map[string]V` is an association list with pairwise distinct keys,
  in insertion order; a possibly nil map is an `Option` of one.  Writing to a nil
  map panics in Go, which the embedding records as `Outcome.error Panic.nilMapAssign`.
* An `error` is a value of the inductive type `Error`; `nil` is `none`.
* The operating system and the libraries outside the repository (`os.Open`,
  `json.Decoder.Decode`, `content.FetchAll`, `os.WriteFile`, the registry
  catalogue) are parameters of the embedding.
-/

namespace Oras

/-! ## Go strings -/

/-- Go `unicode.IsSpace`: the code points with the Unicode White_Space property. -/
def isSpace (c : Char) : Bool :=
  let n := c.toNat
  (0x09 ≤ n && n ≤ 0x0D) || n == 0x20 || n == 0x85 || n == 0xA0 || n == 0x1680 ||
  (0x2000 ≤ n && n ≤ 0x200A) || n == 0x2028 || n == 0x2029 || n == 0x202F ||
  n == 0x205F || n == 0x3000

/-- Go `strings.TrimSpace`: remove all leading and trailing white space. -/
def TrimSpace (s : String) : String :=
  ⟨((s.data.dropWhile isSpace).reverse.dropWhile isSpace).reverse⟩

/-- Does the string contain the byte `=`? -/
def hasEq (s : String) : Bool := s.data.contains '='

/-- Go `strings.SplitN(s, "=", 2)`: at most two pieces, cut at the first `=`. -/
def SplitN (s : String) : List String :=
  match s.data.dropWhile (fun c => c != '=') with
  | [] => [s]
  | _ :: post => [⟨s.data.takeWhile (fun c => c != '=')⟩, ⟨post⟩]

/-! ## Go maps -/

/-- A non-nil `map[string]V`. -/
abbrev GoMap (V : Type) := List (String × V)

namespace GoMap

/-- The lookup `m[k]` in its two-valued form `v, ok := m[k]`. -/
def get? {V : Type} (m : GoMap V) (k : String) : Option V :=
  match m with
  | [] => none
  | (k1, v1) :: rest => if k1 = k then some v1 else get? rest k

/-- The assignment `m[k] = v`. -/
def set {V : Type} (m : GoMap V) (k : String) (v : V) : GoMap V :=
  match m with
  | [] => [(k, v)]
  | (k1, v1) :: rest => if k1 = k then (k, v) :: rest else (k1, v1) :: set rest k v

/-- The key set of the map. -/
def keys {V : Type} (m : GoMap V) : List String := m.map Prod.fst

end GoMap

/-- The type `map[string]string`. -/
abbrev StrMap := GoMap String

/-- The type `map[string]map[string]string` (non-nil). -/
abbrev Annotations := GoMap StrMap

/-! ## Errors -/

/-- Go `error` values that occur in the two files. -/
inductive Error where
  /-- The variable `errAnnotationConflict`. -/
  | errAnnotationConflict
  /-- The variable `errAnnotationFormat`. -/
  | errAnnotationFormat
  /-- The variable `errAnnotationDuplication`. -/
  | errAnnotationDuplication
  /-- An error built by `fmt.Errorf` with one `%w` verb: its text and the wrapped error. -/
  | wrapped (text : String) (inner : Error)
  /-- An error produced outside the repository (operating system, JSON decoder, registry). -/
  | external (text : String)
  deriving DecidableEq

namespace Error

/-- The method `Error()`: the text of the error. -/
def text : Error → String
  | errAnnotationConflict => "annotations cannot be specified via flags and file at the same time"
  | errAnnotationFormat => "annotation MUST be a key-value pair"
  | errAnnotationDuplication => "annotation key duplication"
  | wrapped t _ => t
  | external t => t

/-- Go `errors.Is(e, target)` for these errors. -/
def Is (e target : Error) : Bool :=
  if e = target then true
  else match e with
    | wrapped _ inner => Is inner target
    | _ => false

end Error

/-- Go runtime panics that the embedded code could raise. -/
inductive Panic where
  /-- The panic "assignment to entry in nil map". -/
  | nilMapAssign
  deriving DecidableEq

/-- The outcome of a fallible step: a value, or a failure of type `ε`. -/
inductive Outcome (ε α : Type) where
  | ok (a : α)
  | error (e : ε)
  deriving DecidableEq

/-! ## `packer.go` -/

/-- The constant `annotationManifest`. -/
def annotationManifest : String := "$manifest"

/-- Packer option struct. -/
structure Packer where
  ManifestExportPath : String
  PathValidationDisabled : Bool
  AnnotationsFilePath : String
  ManifestAnnotations : List String
  FileRefs : List String

/-- The error of line 111:
`fmt.Errorf("found annotation key, %v, more than once, %w", key, errAnnotationDuplication)`. -/
def duplicationError (key : String) : Error :=
  Error.wrapped
    ("found annotation key, " ++ key ++ ", more than once, " ++ Error.errAnnotationDuplication.text)
    Error.errAnnotationDuplication

/-- The `for` loop of `parseAnnotationFlags` (lines 103-114), started with the
entries still to scan and the current `rawAnnotationsMap`. -/
def parseAnnotationFlags.loop : List String → StrMap → Outcome Error StrMap
  | [], rawAnnotationsMap => .ok rawAnnotationsMap
  | anno :: rest, rawAnnotationsMap =>
    match SplitN anno with
    | [p0, p1] =>
      let k := TrimSpace p0
      let v := TrimSpace p1
      if (rawAnnotationsMap.get? k).isSome then
        .error (duplicationError k)
      else
        parseAnnotationFlags.loop rest (rawAnnotationsMap.set k v)
    | _ => .error Error.errAnnotationFormat

/-- What a call of `parseAnnotationFlags` leaves behind: the map that was passed by
reference, as it is after the call, and the returned error. -/
structure FlagsResult where
  annotations : Option Annotations
  err : Option Error
  deriving DecidableEq

/-- The function `parseAnnotationFlags` (lines 101-117). -/
def parseAnnotationFlags (ManifestAnnotations : List String) (annotations : Option Annotations) :
    Outcome Panic FlagsResult :=
  match parseAnnotationFlags.loop ManifestAnnotations [] with
  | .error e => .ok ⟨annotations, some e⟩
  | .ok rawAnnotationsMap =>
    match annotations with
    | none => .error Panic.nilMapAssign
    | some m => .ok ⟨some (m.set annotationManifest rawAnnotationsMap), none⟩

/-- The part of the operating system and of `encoding/json` that `decodeJSON` uses.
`Open name` is `os.Open(name)`: the content of the file, or the error of the call.
`Decode file v` is `json.NewDecoder(file).Decode(&v)`: the value of `v` after the call
and the returned error. -/
structure FileReader where
  Open : String → Outcome Error String
  Decode : String → Option Annotations → Option Annotations × Option Error

/-- What a call of `decodeJSON` leaves behind: the value `v` points to, the returned
error, and the names of the files opened, in order. -/
structure DecodeResult where
  v : Option Annotations
  err : Option Error
  opened : List String
  deriving DecidableEq

/-- The function `decodeJSON` (lines 91-98). -/
def decodeJSON (rd : FileReader) (filename : String) (v : Option Annotations) : DecodeResult :=
  match rd.Open filename with
  | .error err => ⟨v, some err, [filename]⟩
  | .ok file => ⟨(rd.Decode file v).1, (rd.Decode file v).2, [filename]⟩

/-- What `LoadManifestAnnotations` returns, together with the names of the files it
opened. -/
structure LoadResult where
  annotations : Option Annotations
  err : Option Error
  opened : List String
  deriving DecidableEq

/-- The method `(*Packer).LoadManifestAnnotations` (lines 72-88). -/
def LoadManifestAnnotations (rd : FileReader) (opts : Packer) : Outcome Panic LoadResult :=
  let annotations : Option Annotations := some []
  if opts.AnnotationsFilePath ≠ "" ∧ opts.ManifestAnnotations.length ≠ 0 then
    .ok ⟨none, some Error.errAnnotationConflict, []⟩
  else
    let d : DecodeResult :=
      if opts.AnnotationsFilePath ≠ "" then decodeJSON rd opts.AnnotationsFilePath annotations
      else ⟨annotations, none, []⟩
    match d.err with
    | some err => .ok ⟨none, some err, d.opened⟩
    | none =>
      if opts.ManifestAnnotations.length ≠ 0 then
        match parseAnnotationFlags opts.ManifestAnnotations d.v with
        | .error p => .error p
        | .ok r =>
          match r.err with
          | some err => .ok ⟨none, some err, d.opened⟩
          | none => .ok ⟨r.annotations, none, d.opened⟩
      else
        .ok ⟨d.v, none, d.opened⟩

/-- The content of a file or of a blob. -/
abbrev Bytes := List Nat

/-- An `ocispec.Descriptor`. -/
structure Descriptor where
  MediaType : String
  Digest : String
  Size : Int
  deriving DecidableEq

/-- The state `ExportManifest` acts on: the files of the file system, by name, and the
descriptors the fetcher has been asked for so far. -/
structure World where
  files : GoMap Bytes
  fetched : List Descriptor
  deriving DecidableEq

/-- The method `(*Packer).ExportManifest` (lines 60-69).  `FetchAll desc` is
`content.FetchAll(ctx, fetcher, desc)`; `WriteFile files name data` is
`os.WriteFile(name, data, 0666)`: the files after the call and the returned error. -/
def ExportManifest (FetchAll : Descriptor → Outcome Error Bytes)
    (WriteFile : GoMap Bytes → String → Bytes → GoMap Bytes × Option Error)
    (opts : Packer) (desc : Descriptor) (w : World) : World × Option Error :=
  if opts.ManifestExportPath = "" then
    (w, none)
  else
    match FetchAll desc with
    | .error err => (⟨w.files, w.fetched ++ [desc]⟩, some err)
    | .ok manifestBytes =>
      (⟨(WriteFile w.files opts.ManifestExportPath manifestBytes).1, w.fetched ++ [desc]⟩,
        (WriteFile w.files opts.ManifestExportPath manifestBytes).2)

/-- An `os.WriteFile` on a file system where the names in `denied` cannot be opened for
writing: such a call fails and changes nothing, every other call stores the data. -/
def writeFileDenying (denied : List String) (files : GoMap Bytes) (name : String) (data : Bytes) :
    GoMap Bytes × Option Error :=
  if name ∈ denied then (files, some (Error.external ("open " ++ name ++ ": permission denied")))
  else (files.set name data, none)

/-! ## `list.go` -/

/-- The struct `repositoryOptions`, without the embedded `option.Remote` and
`option.Common`, which only serve to reach the registry. -/
structure repositoryOptions where
  hostname : String
  first : Int
  skip : Int
  startwith : String
  endwith : String
  contains : String
  paginationKey : Nat

/-- Modelled from the spec: `display.Filter` is not part of the shown sources.  Spec 4.3,
filter stage: keep the names that satisfy every constraint that is non-empty, order
preserved; `startwith` is a prefix, `endwith` a suffix and `contains` a substring, as in
section 1 of the spec (the help texts of `--endwith` and `--contains` in `list.go`, lines
59-60, both read "records start with X"). -/
def Filter (repos : List String) (startwith endwith contains : String) : List String :=
  repos.filter fun r =>
    (startwith == "" || startwith.data.isPrefixOf r.data) &&
    (endwith == "" || endwith.data.isSuffixOf r.data) &&
    (contains == "" || r.data.tails.any (fun t => contains.data.isPrefixOf t))

/-- Modelled from the spec: `display.Cut` is not part of the shown sources.  Spec 4.3,
bound stage: drop the first `skip` entries, then keep at most `first` of what remains;
`first ≤ 0` gives no results. -/
def Cut (repos : List String) (first skip : Int) : List String :=
  if first ≤ 0 then [] else (repos.drop skip.toNat).take first.toNat

/-- Modelled from the spec: `display.Pagination` is not part of the shown sources, and
neither is its page size, which is the parameter `pageSize`.  Spec 4.3, pagination stage:
the slice `[cursor, cursor+pageSize)` clamped to the list, and the next cursor
`cursor + len(page)`. -/
def Pagination (pageSize : Nat) (repos : List String) (cursor : Nat) : List String × Nat :=
  (((repos.drop cursor).take pageSize), cursor + ((repos.drop cursor).take pageSize).length)

/-- The paging loop of `listRepository` (lines 74-83) over the list `repos`, entered
with `opts.paginationKey = paginationKey`.  The result is the sequence of pages
obtained, the last one being the empty page on which the loop breaks, and the value of
`opts.paginationKey` on exit; `none` if the loop is still running after `fuel` turns. -/
def pagingLoop (pageSize : Nat) (repos : List String) : Nat → Nat → Option (List (List String) × Nat)
  | 0, _ => none
  | fuel + 1, paginationKey =>
    let page := (Pagination pageSize repos paginationKey).1
    let nextKey := (Pagination pageSize repos paginationKey).2
    if page.length = 0 then some ([page], nextKey)
    else
      match pagingLoop pageSize repos fuel nextKey with
      | none => none
      | some (pages, key) => some (page :: pages, key)

/-- The callback passed to `reg.Repositories` (lines 71-85), called on one batch with
the options as the closure holds them.  The result is the lines printed and the
options after the call (the closure captures the variable `opts`). -/
def listRepository.callback (fuel pageSize : Nat) (opts : repositoryOptions) (repos : List String) :
    Option (List String × repositoryOptions) :=
  let repos1 := Filter repos opts.startwith opts.endwith opts.contains
  let repos2 := Cut repos1 opts.first opts.skip
  match pagingLoop pageSize repos2 fuel opts.paginationKey with
  | none => none
  | some (pages, key) => some (pages.flatten, { opts with paginationKey := key })

/-- The calls `reg.Repositories` makes to the callback: one per batch, in order, each
seeing the options the previous one left.  The result is all the lines printed. -/
def listRepository.batches (fuel pageSize : Nat) :
    repositoryOptions → List (List String) → Option (List String)
  | _, [] => some []
  | opts, repos :: rest =>
    match listRepository.callback fuel pageSize opts repos with
    | none => none
    | some (out, opts1) =>
      match listRepository.batches fuel pageSize opts1 rest with
      | none => none
      | some outs => some (out ++ outs)

/-- A registry as `listRepository` sees it: the batches `reg.Repositories` passes to
the callback, and the error it returns after them. -/
structure Registry where
  batches : List (List String)
  err : Option Error

/-- The function `listRepository` (lines 64-89).  `NewRegistry` is the outcome of
`opts.Remote.NewRegistry`.  The result is the lines printed on standard output and the
returned error; `none` if a paging loop is still running after `fuel` turns. -/
def listRepository (fuel pageSize : Nat) (NewRegistry : Outcome Error Registry)
    (opts : repositoryOptions) : Option (List String × Option Error) :=
  match NewRegistry with
  | .error err => some ([], some err)
  | .ok reg =>
    match listRepository.batches fuel pageSize opts reg.batches with
    | none => none
    | some out => some (out, reg.err)

/-- The options of `oras repository list` when only `--first` and `--skip` are given:
`paginationKey` has no flag and starts at zero. -/
def plainOptions (first skip : Int) : repositoryOptions :=
  { hostname := "localhost:5000", first := first, skip := skip,
    startwith := "", endwith := "", contains := "", paginationKey := 0 }

/-! ## The words of the specification -/

/-- The text of a raw entry before its first `=` (the whole entry if it has none). -/
def textBefore (s : String) : String := ⟨s.data.takeWhile (fun c => c != '=')⟩

/-- The text of a raw entry after its first `=` (empty if it has none). -/
def textAfter (s : String) : String := ⟨(s.data.dropWhile (fun c => c != '=')).drop 1⟩

/-- The key of a raw entry: the text before the first `=`, trimmed. -/
def keyOf (s : String) : String := TrimSpace (textBefore s)

/-- The value of a raw entry: the text after the first `=`, trimmed. -/
def valueOf (s : String) : String := TrimSpace (textAfter s)

/-- The key and the value of a raw entry. -/
def pairOf (s : String) : String × String := (keyOf s, valueOf s)

/-- The entry at position `i` is offending: it has no `=`, or its key is the key of an
earlier entry. -/
def offending (l : List String) (i : Nat) : Bool :=
  match l[i]? with
  | none => false
  | some e => !hasEq e || ((l.take i).map keyOf).contains (keyOf e)

/-- The entry at position `i` of `l` is offending when the keys `ks` have been seen
before `l` is scanned. -/
def offendingIn (ks : List String) (l : List String) (i : Nat) : Bool :=
  match l[i]? with
  | none => false
  | some e => !hasEq e || (ks ++ (l.take i).map keyOf).contains (keyOf e)

/-- A file reader on a file system without files: every `os.Open` fails. -/
def noFiles : FileReader where
  Open := fun name => .error (Error.external ("open " ++ name ++ ": no such file or directory"))
  Decode := fun _ v => (v, none)

/-- A file reader on a file system whose files all hold the JSON text
`{"$manifest":{"a":"b"}}`, decoded as `encoding/json` does into an empty map. -/
def oneFile : FileReader where
  Open := fun _ => .ok "\x7b\"$manifest\":\x7b\"a\":\"b\"\x7d\x7d"
  Decode := fun _ _ => (some [("$manifest", [("a", "b")])], none)

/-- The number of pages of size `P` needed for `N` names: `⌈N/P⌉`. -/
def ceilDiv (N P : Nat) : Nat := (N + P - 1) / P

/-- The string `t` is the string `s` trimmed: `s` is `t` between two runs of white space,
and `t` neither starts nor ends with white space. -/
def IsTrimOf (t s : String) : Prop :=
  ∃ a b : List Char, s.data = a ++ t.data ++ b ∧
    (∀ c ∈ a, isSpace c = true) ∧ (∀ c ∈ b, isSpace c = true) ∧
    (∀ c, t.data.head? = some c → isSpace c = false) ∧
    (∀ c, t.data.getLast? = some c → isSpace c = false)

/-- The raw entry `e` reads `k = v`: it is some text without `=`, then `=`, then some
text, and `k` and `v` are these two texts trimmed. -/
def IsEntryOf (e k v : String) : Prop :=
  ∃ pre post : String, e = pre ++ "=" ++ post ∧ hasEq pre = false ∧
    IsTrimOf k pre ∧ IsTrimOf v post

/-- The OCI descriptor of the two bytes `{}`: their SHA-256 digest and their size. -/
def emptyJSON : Descriptor :=
  ⟨"application/vnd.oci.empty.v1+json",
    "sha256:44136fa355b3678a1146ad16f7e8649e94fb4fc21fe77e8310c060f61caaff8a", 2⟩

/-- The call `content.FetchAll` on a store that holds the blob `{}` and nothing else: the
blob is returned for the descriptor with its digest and size, every other descriptor fails. -/
def fetchEmptyJSON (desc : Descriptor) : Outcome Error Bytes :=
  if desc.Digest = emptyJSON.Digest ∧ desc.Size = 2 then .ok [123, 125]
  else .error (Error.external (desc.Digest ++ ": not found"))

/-! ## Go strings and maps: basic facts -/

theorem SplitN_of_hasEq (s : String) (h : hasEq s = true) :
    SplitN s = [textBefore s, textAfter s] := by
  unfold SplitN textBefore textAfter
  cases hd : s.data.dropWhile (fun c => c != '=') with
  | nil =>
    exfalso
    rw [List.dropWhile_eq_nil_iff] at hd
    have hm : '=' ∈ s.data := by simpa [hasEq] using h
    have := hd _ hm
    simp at this
  | cons a post => simp

theorem SplitN_of_not_hasEq (s : String) (h : hasEq s = false) : SplitN s = [s] := by
  unfold SplitN
  have hd : s.data.dropWhile (fun c => c != '=') = [] := by
    rw [List.dropWhile_eq_nil_iff]
    intro x hx
    have hm : '=' ∉ s.data := by simpa [hasEq] using h
    simp only [bne_iff_ne, ne_eq]
    intro hxe
    exact hm (hxe ▸ hx)
  rw [hd]

/-- The decomposition is the intended one: an entry `pre ++ "=" ++ post` whose `pre`
has no `=` has `pre` before and `post` after its first `=`. -/
theorem textBefore_textAfter (pre post : String) (h : hasEq pre = false) :
    hasEq (pre ++ "=" ++ post) = true ∧ textBefore (pre ++ "=" ++ post) = pre ∧
      textAfter (pre ++ "=" ++ post) = post := by
  have hm : ∀ x ∈ pre.data, (x != '=') = true := by
    intro x hx
    have hm : '=' ∉ pre.data := by simpa [hasEq] using h
    simp only [bne_iff_ne, ne_eq]
    intro hxe
    exact hm (hxe ▸ hx)
  have hd : (pre ++ "=" ++ post).data = pre.data ++ '=' :: post.data := by
    simp [String.data_append]
  refine ⟨?_, ?_, ?_⟩
  · simp [hasEq, hd]
  · unfold textBefore
    rw [hd, List.takeWhile_append_of_pos hm]
    simp
  · unfold textAfter
    rw [hd, List.dropWhile_append_of_pos hm]
    simp

theorem entry_split (e : String) (h : hasEq e = true) :
    e = textBefore e ++ "=" ++ textAfter e ∧ hasEq (textBefore e) = false := by
  have hne : e.data.dropWhile (fun c => c != '=') ≠ [] := by
    intro hd
    rw [List.dropWhile_eq_nil_iff] at hd
    have hm : '=' ∈ e.data := by simpa [hasEq] using h
    have := hd _ hm
    simp at this
  obtain ⟨x, post, hxp⟩ := List.exists_cons_of_ne_nil hne
  have hx : x = '=' := by
    have := List.head?_dropWhile_not (fun c => c != '=') e.data
    rw [hxp] at this
    simpa using this
  subst hx
  constructor
  · apply String.ext
    have hd : (textBefore e ++ "=" ++ textAfter e).data =
        e.data.takeWhile (fun c => c != '=') ++
          '=' :: (e.data.dropWhile (fun c => c != '=')).drop 1 := by
      simp [textBefore, textAfter, String.data_append]
    rw [hd, hxp]
    have := List.takeWhile_append_dropWhile (fun c => c != '=') e.data
    rw [hxp] at this
    simpa using this.symm
  · have hnm : '=' ∉ e.data.takeWhile (fun c => c != '=') := by
      intro hin
      have := List.mem_takeWhile_imp hin
      simp at this
    simpa [hasEq, textBefore] using hnm

theorem TrimSpace_isTrimOf (s : String) : IsTrimOf (TrimSpace s) s := by
  have h1 := List.takeWhile_append_dropWhile isSpace s.data
  have h2 := List.takeWhile_append_dropWhile isSpace (s.data.dropWhile isSpace).reverse
  have h3 : s.data.dropWhile isSpace =
      ((s.data.dropWhile isSpace).reverse.dropWhile isSpace).reverse ++
        ((s.data.dropWhile isSpace).reverse.takeWhile isSpace).reverse := by
    rw [← List.reverse_append, h2, List.reverse_reverse]
  have hlast : ∀ c, ((s.data.dropWhile isSpace).reverse.dropWhile isSpace).reverse.getLast?
      = some c → isSpace c = false := by
    intro c hc
    rw [List.getLast?_reverse] at hc
    have := List.head?_dropWhile_not isSpace (s.data.dropWhile isSpace).reverse
    rw [hc] at this
    exact this
  refine ⟨s.data.takeWhile isSpace,
    ((s.data.dropWhile isSpace).reverse.takeWhile isSpace).reverse, ?_, ?_, ?_, ?_, hlast⟩
  · show s.data = _ ++ ((s.data.dropWhile isSpace).reverse.dropWhile isSpace).reverse ++ _
    rw [List.append_assoc, ← h3, h1]
  · intro c hc
    exact List.mem_takeWhile_imp hc
  · intro c hc
    exact List.mem_takeWhile_imp (List.mem_reverse.mp hc)
  · intro c hc
    have hc2 : ((s.data.dropWhile isSpace).reverse.dropWhile isSpace).reverse.head? = some c :=
      hc
    have hhead : (s.data.dropWhile isSpace).head? = some c := by
      rw [h3, List.head?_append, hc2]
      rfl
    have := List.head?_dropWhile_not isSpace s.data
    rw [hhead] at this
    exact this

theorem pairOf_isEntryOf (e : String) (h : hasEq e = true) :
    IsEntryOf e (keyOf e) (valueOf e) :=
  ⟨textBefore e, textAfter e, (entry_split e h).1, (entry_split e h).2,
    TrimSpace_isTrimOf _, TrimSpace_isTrimOf _⟩

namespace GoMap

theorem get?_isSome_iff {V : Type} (m : GoMap V) (k : String) :
    (m.get? k).isSome = true ↔ k ∈ m.keys := by
  induction m with
  | nil => simp [get?, keys]
  | cons a t ih =>
    obtain ⟨k1, v1⟩ := a
    by_cases h : k1 = k
    · simp [get?, keys, h]
    · have h2 : ¬ k = k1 := fun e => h e.symm
      simp only [get?, h, if_false, ih]
      simp [keys, h2]

theorem set_of_not_mem {V : Type} (m : GoMap V) (k : String) (v : V) (h : k ∉ m.keys) :
    m.set k v = m ++ [(k, v)] := by
  induction m with
  | nil => simp [set]
  | cons a t ih =>
    obtain ⟨k1, v1⟩ := a
    have h1 : ¬ k1 = k := by
      intro e
      apply h
      simp [keys, e]
    have h2 : k ∉ keys t := by
      intro e
      apply h
      simp only [keys, List.map_cons, List.mem_cons]
      exact Or.inr e
    simp [set, h1, ih h2]

theorem get?_set_self {V : Type} (m : GoMap V) (k : String) (v : V) :
    (m.set k v).get? k = some v := by
  induction m with
  | nil => simp [set, get?]
  | cons a t ih =>
    obtain ⟨k1, v1⟩ := a
    by_cases h : k1 = k
    · simp [set, get?, h]
    · simp [set, get?, h, ih]

theorem get?_set_of_ne {V : Type} (m : GoMap V) (k q : String) (v : V) (h : q ≠ k) :
    (m.set k v).get? q = m.get? q := by
  induction m with
  | nil =>
    have h2 : ¬ k = q := fun e => h e.symm
    simp [set, get?, h2]
  | cons a t ih =>
    obtain ⟨k1, v1⟩ := a
    by_cases h1 : k1 = k
    · have h2 : ¬ k = q := fun e => h e.symm
      subst h1
      simp [set, get?, h2]
    · by_cases h3 : k1 = q
      · subst h3
        simp [set, get?, h1]
      · simp [set, get?, h1, h3, ih]

end GoMap

/-! ## The scan of `parseAnnotationFlags` -/

theorem offending_eq (l : List String) (i : Nat) : offending l i = offendingIn [] l i := by
  simp [offending, offendingIn]

theorem offendingIn_succ (ks : List String) (a : String) (t : List String) (i : Nat) :
    offendingIn ks (a :: t) (i + 1) = offendingIn (ks ++ [keyOf a]) t i := by
  simp [offendingIn]

theorem offendingIn_zero (ks : List String) (a : String) (t : List String) :
    offendingIn ks (a :: t) 0 = (!hasEq a || ks.contains (keyOf a)) := by
  simp [offendingIn]

theorem keys_append_pairOf (m : StrMap) (a : String) :
    GoMap.keys (m ++ [pairOf a]) = GoMap.keys m ++ [keyOf a] := by
  simp [GoMap.keys, pairOf]

theorem loop_step (anno : String) (rest : List String) (m : StrMap)
    (h : hasEq anno = true) (hk : keyOf anno ∉ GoMap.keys m) :
    parseAnnotationFlags.loop (anno :: rest) m =
      parseAnnotationFlags.loop rest (m ++ [pairOf anno]) := by
  have hn : ¬ ((GoMap.get? m (keyOf anno)).isSome = true) := by
    rw [GoMap.get?_isSome_iff]; exact hk
  have hs := GoMap.set_of_not_mem m (keyOf anno) (valueOf anno) hk
  rw [parseAnnotationFlags.loop, SplitN_of_hasEq anno h]
  simp only [keyOf, valueOf, pairOf] at hn hs ⊢
  rw [if_neg hn, hs]

theorem loop_format (anno : String) (rest : List String) (m : StrMap)
    (h : hasEq anno = false) :
    parseAnnotationFlags.loop (anno :: rest) m = .error Error.errAnnotationFormat := by
  rw [parseAnnotationFlags.loop, SplitN_of_not_hasEq anno h]

theorem loop_dup (anno : String) (rest : List String) (m : StrMap)
    (h : hasEq anno = true) (hk : keyOf anno ∈ GoMap.keys m) :
    parseAnnotationFlags.loop (anno :: rest) m = .error (duplicationError (keyOf anno)) := by
  have hn : (GoMap.get? m (keyOf anno)).isSome = true := by
    rw [GoMap.get?_isSome_iff]; exact hk
  rw [parseAnnotationFlags.loop, SplitN_of_hasEq anno h]
  simp only [keyOf] at hn ⊢
  rw [if_pos hn]

theorem loop_ok (l : List String) : ∀ m : StrMap,
    (∀ i, offendingIn (GoMap.keys m) l i = false) →
    parseAnnotationFlags.loop l m = .ok (m ++ l.map pairOf) := by
  induction l with
  | nil => intro m _; simp [parseAnnotationFlags.loop]
  | cons a t ih =>
    intro m h
    have h0 := h 0
    rw [offendingIn_zero] at h0
    have h0r : hasEq a = true ∧ keyOf a ∉ GoMap.keys m := by simpa using h0
    have ha : hasEq a = true := h0r.1
    have hk : keyOf a ∉ GoMap.keys m := h0r.2
    rw [loop_step a t m ha hk, ih (m ++ [pairOf a])]
    · simp
    · intro i
      rw [keys_append_pairOf, ← offendingIn_succ]
      exact h (i + 1)

theorem loop_first (l : List String) : ∀ (m : StrMap) (i : Nat) (e : String),
    l[i]? = some e → offendingIn (GoMap.keys m) l i = true →
    (∀ j, j < i → offendingIn (GoMap.keys m) l j = false) →
    parseAnnotationFlags.loop l m =
      .error (if hasEq e = true then duplicationError (keyOf e) else Error.errAnnotationFormat) := by
  induction l with
  | nil => intro m i e he; simp at he
  | cons a t ih =>
    intro m i e he hi hlt
    cases i with
    | zero =>
      have hae : a = e := by simpa using he
      subst hae
      rw [offendingIn_zero] at hi
      by_cases ha : hasEq a = true
      · have hk : keyOf a ∈ GoMap.keys m := by simpa [ha] using hi
        rw [loop_dup a t m ha hk]
        simp [ha]
      · have ha2 : hasEq a = false := by simpa using ha
        rw [loop_format a t m ha2]
        simp [ha2]
    | succ i =>
      have h0 := hlt 0 (Nat.succ_pos i)
      rw [offendingIn_zero] at h0
      have ha : hasEq a = true := by
        cases hh : hasEq a
        · simp [hh] at h0
        · rfl
      have hk : keyOf a ∉ GoMap.keys m := by simpa [ha] using h0
      rw [loop_step a t m ha hk]
      apply ih (m ++ [pairOf a]) i e
      · simpa using he
      · rw [keys_append_pairOf, ← offendingIn_succ]; exact hi
      · intro j hj
        rw [keys_append_pairOf, ← offendingIn_succ]
        exact hlt (j + 1) (Nat.succ_lt_succ hj)

theorem duplicationError_eq (k : String) :
    duplicationError k =
      Error.wrapped ("found annotation key, " ++ k ++
        ", more than once, annotation key duplication") Error.errAnnotationDuplication := by
  have hlit : ", more than once, " ++ "annotation key duplication" =
      ", more than once, annotation key duplication" := by decide
  simp only [duplicationError, Error.text, String.append_assoc, hlit]

/-- The result of `parseAnnotationFlags` when no entry is offending. -/
theorem parse_ok (l : List String) (m : Annotations) (h : ∀ i, offending l i = false) :
    parseAnnotationFlags l (some m) =
      .ok ⟨some (GoMap.set m annotationManifest (l.map pairOf)), none⟩ := by
  have hl := loop_ok l [] (by
    intro i; rw [show GoMap.keys ([] : StrMap) = [] from rfl, ← offending_eq]; exact h i)
  simp only [parseAnnotationFlags, hl]
  simp

/-- The result of `parseAnnotationFlags` when the first offending entry is at `i`. -/
theorem parse_first (l : List String) (ann : Option Annotations) (i : Nat) (e : String)
    (he : l[i]? = some e) (hi : offending l i = true) (hlt : ∀ j, j < i → offending l j = false) :
    parseAnnotationFlags l ann =
      .ok ⟨ann, some (if hasEq e = true then duplicationError (keyOf e)
        else Error.errAnnotationFormat)⟩ := by
  have hl := loop_first l [] i e he
    (by rw [show GoMap.keys ([] : StrMap) = [] from rfl, ← offending_eq]; exact hi)
    (by
      intro j hj
      rw [show GoMap.keys ([] : StrMap) = [] from rfl, ← offending_eq]; exact hlt j hj)
  simp only [parseAnnotationFlags, hl]

/-- With no annotations file, `LoadManifestAnnotations` on a non-empty list of raw
entries returns what `parseAnnotationFlags` makes of the empty map. -/
theorem load_flags (rd : FileReader) (opts : Packer) (hp : opts.AnnotationsFilePath = "")
    (hl : opts.ManifestAnnotations ≠ []) :
    LoadManifestAnnotations rd opts =
      match parseAnnotationFlags opts.ManifestAnnotations (some []) with
      | .error p => .error p
      | .ok r =>
        match r.err with
        | some err => .ok ⟨none, some err, []⟩
        | none => .ok ⟨r.annotations, none, []⟩ := by
  have hlen : opts.ManifestAnnotations.length ≠ 0 := by
    simpa [List.length_eq_zero] using hl
  simp [LoadManifestAnnotations, hp, hlen]

theorem load_of_parse (rd : FileReader) (opts : Packer) (hp : opts.AnnotationsFilePath = "")
    (hl : opts.ManifestAnnotations ≠ []) (a : Option Annotations) (err : Option Error)
    (h : parseAnnotationFlags opts.ManifestAnnotations (some []) = .ok ⟨a, err⟩) :
    LoadManifestAnnotations rd opts = .ok ⟨if err = none then a else none, err, []⟩ := by
  rw [load_flags rd opts hp hl, h]
  cases err <;> rfl

theorem not_offending_of_nodup (l : List String) (heq : ∀ e ∈ l, hasEq e = true)
    (hnd : (l.map keyOf).Nodup) (i : Nat) : offending l i = false := by
  unfold offending
  cases he : l[i]? with
  | none => rfl
  | some e =>
    have hi : i < l.length := (List.getElem?_eq_some_iff.mp he).1
    have hei : l[i] = e := (List.getElem?_eq_some_iff.mp he).2
    have hmem : e ∈ l := hei ▸ List.getElem_mem hi
    have hsplit : l = l.take i ++ e :: l.drop (i + 1) := by
      rw [← hei, ← List.drop_eq_getElem_cons hi, List.take_append_drop]
    have hnd2 : ((l.take i).map keyOf ++ keyOf e :: (l.drop (i + 1)).map keyOf).Nodup := by
      have := hnd
      rw [hsplit] at this
      simpa using this
    have hnot : keyOf e ∉ (l.take i).map keyOf := by
      intro hin
      have hdis := (List.nodup_append.mp hnd2).2.2
      exact hdis hin (List.mem_cons_self _ _) 
    simp only [heq e hmem, Bool.not_true, Bool.false_or]
    simpa using hnot

theorem get?_map_pairOf (l : List String) (hnd : (l.map keyOf).Nodup) (e : String)
    (he : e ∈ l) : GoMap.get? (l.map pairOf) (keyOf e) = some (valueOf e) := by
  induction l with
  | nil => simp at he
  | cons a t ih =>
    have hnd2 : keyOf a ∉ t.map keyOf ∧ (t.map keyOf).Nodup :=
      List.nodup_cons.mp (by rw [← List.map_cons]; exact hnd)
    by_cases hk : keyOf a = keyOf e
    · rcases List.mem_cons.mp he with hea | het
      · subst hea
        simp [GoMap.get?, pairOf]
      · exfalso
        apply hnd2.1
        rw [hk]
        exact List.mem_map_of_mem keyOf het
    · have het : e ∈ t := by
        rcases List.mem_cons.mp he with hea | het
        · exact absurd (hea ▸ rfl) hk
        · exact het
      have := ih hnd2.2 het
      simpa [GoMap.get?, pairOf, hk] using this

theorem offending_take_append (l rest : List String) (i j : Nat) (hi : i < l.length)
    (hj : j ≤ i) : offending (l.take (i + 1) ++ rest) j = offending l j := by
  have hlen : (l.take (i + 1)).length = i + 1 := by
    rw [List.length_take]; omega
  have h1 : (l.take (i + 1) ++ rest)[j]? = l[j]? := by
    rw [List.getElem?_append_left (by omega), List.getElem?_take_of_lt (by omega)]
  have h2 : (l.take (i + 1) ++ rest).take j = l.take j := by
    rw [List.take_append_of_le_length (by omega), List.take_take]
    congr 1
    omega
  unfold offending
  rw [h1, h2]

/-! ## The claims about `LoadManifestAnnotations` and `parseAnnotationFlags` -/

/-- C2: with no annotations file and a non-empty list of raw entries that all contain `=`
and whose trimmed keys are pairwise distinct, `LoadManifestAnnotations` returns no error
and a mapping whose only scope is the string `$manifest`; the value of that scope maps,
for every entry, the trimmed text before the first `=` to the trimmed text after it, and
has no other key; every entry is some text without `=`, then `=`, then some text, and its
key and its value are these two texts without their leading and trailing white space.  No
file is opened. -/
theorem loadManifestAnnotations_flags (rd : FileReader) (opts : Packer)
    (hp : opts.AnnotationsFilePath = "") (hne : opts.ManifestAnnotations ≠ [])
    (heq : ∀ e ∈ opts.ManifestAnnotations, hasEq e = true)
    (hnd : (opts.ManifestAnnotations.map keyOf).Nodup) :
    LoadManifestAnnotations rd opts =
        .ok ⟨some [("$manifest", opts.ManifestAnnotations.map pairOf)], none, []⟩ ∧
      (∀ e ∈ opts.ManifestAnnotations,
        GoMap.get? (opts.ManifestAnnotations.map pairOf) (keyOf e) = some (valueOf e)) ∧
      (∀ k, k ∈ GoMap.keys (opts.ManifestAnnotations.map pairOf) ↔
        ∃ e ∈ opts.ManifestAnnotations, keyOf e = k) ∧
      (∀ e ∈ opts.ManifestAnnotations, IsEntryOf e (keyOf e) (valueOf e)) := by
  refine ⟨?_, ?_, ?_, ?_⟩
  · have hpo := parse_ok opts.ManifestAnnotations []
      (not_offending_of_nodup opts.ManifestAnnotations heq hnd)
    rw [load_of_parse rd opts hp hne _ _ hpo]
    have hset : GoMap.set ([] : Annotations) annotationManifest
        (opts.ManifestAnnotations.map pairOf) =
          [("$manifest", opts.ManifestAnnotations.map pairOf)] := by
      have hname : annotationManifest = "$manifest" := by decide
      rw [hname]
      rfl
    rw [hset]
    rfl
  · intro e he
    exact get?_map_pairOf opts.ManifestAnnotations hnd e he
  · intro k
    simp [GoMap.keys, pairOf]
  · intro e he
    exact pairOf_isEntryOf e (heq e he)

/-- C2, at the two entries of the claim: `x = y` gives key `x` with value `y`, and
`a=b=c` gives key `a` with value `b=c`. -/
theorem loadManifestAnnotations_flags_witness :
    LoadManifestAnnotations noFiles ⟨"", false, "", ["x = y", "a=b=c"], []⟩ =
        .ok ⟨some [("$manifest", [("x", "y"), ("a", "b=c")])], none, []⟩ ∧
      GoMap.get? [("x", "y"), ("a", "b=c")] "x" = some "y" ∧
      GoMap.get? [("x", "y"), ("a", "b=c")] "a" = some "b=c" :=
  ⟨(loadManifestAnnotations_flags noFiles ⟨"", false, "", ["x = y", "a=b=c"], []⟩ rfl
      (by decide) (by decide) (by decide)).1.trans (by decide),
    by decide, by decide⟩

/-- C3: with a non-empty annotations file path and at least one raw entry,
`LoadManifestAnnotations` returns `errAnnotationConflict` and a nil mapping, and opens no
file, whatever the entries are and whatever the file system holds. -/
theorem loadManifestAnnotations_conflict (rd : FileReader) (opts : Packer)
    (hp : opts.AnnotationsFilePath ≠ "") (hne : opts.ManifestAnnotations ≠ []) :
    LoadManifestAnnotations rd opts = .ok ⟨none, some Error.errAnnotationConflict, []⟩ := by
  have hlen : opts.ManifestAnnotations.length ≠ 0 := by
    simpa [List.length_eq_zero] using hne
  simp [LoadManifestAnnotations, hp, hlen]

/-- C3, on a file that exists and decodes, with a raw entry that is not even well formed. -/
theorem loadManifestAnnotations_conflict_witness :
    LoadManifestAnnotations oneFile ⟨"", false, "annotations.json", ["novalue"], []⟩ =
      .ok ⟨none, some Error.errAnnotationConflict, []⟩ :=
  loadManifestAnnotations_conflict oneFile ⟨"", false, "annotations.json", ["novalue"], []⟩
    (by decide) (by decide)

/-- C4, as the claim states it, fails: in `a=1`, `b`, `a=2` two entries have the key `a`,
yet the scan stops at `b`, which has no `=`, and the error is `errAnnotationFormat`, which
does not wrap `errAnnotationDuplication`. -/
theorem loadManifestAnnotations_duplication_counterexample :
    keyOf "a=1" = keyOf "a=2" ∧
      LoadManifestAnnotations noFiles ⟨"", false, "", ["a=1", "b", "a=2"], []⟩ =
        .ok ⟨none, some Error.errAnnotationFormat, []⟩ ∧
      Error.Is Error.errAnnotationFormat Error.errAnnotationDuplication = false := by
  decide

/-- C4, amended: with no annotations file, if the entry at position `i` contains `=` and
its trimmed key is the trimmed key of an earlier entry, and no entry before position `i`
is offending (lacks `=` or repeats an earlier key), then `LoadManifestAnnotations` returns
a nil mapping and an error that wraps `errAnnotationDuplication` and whose text names the
key of that entry. -/
theorem loadManifestAnnotations_duplication (rd : FileReader) (opts : Packer) (i : Nat)
    (e : String) (hp : opts.AnnotationsFilePath = "")
    (he : opts.ManifestAnnotations[i]? = some e) (hh : hasEq e = true)
    (hk : keyOf e ∈ (opts.ManifestAnnotations.take i).map keyOf)
    (hlt : ∀ j, j < i → offending opts.ManifestAnnotations j = false) :
    LoadManifestAnnotations rd opts = .ok ⟨none, some (duplicationError (keyOf e)), []⟩ ∧
      Error.Is (duplicationError (keyOf e)) Error.errAnnotationDuplication = true ∧
      (duplicationError (keyOf e)).text =
        "found annotation key, " ++ keyOf e ++ ", more than once, annotation key duplication" := by
  have hne : opts.ManifestAnnotations ≠ [] := by
    intro h0
    rw [h0] at he
    simp at he
  have hi : offending opts.ManifestAnnotations i = true := by
    unfold offending
    rw [he]
    simp only [hh, Bool.not_true, Bool.false_or]
    simpa using hk
  have hpf := parse_first opts.ManifestAnnotations (some []) i e he hi hlt
  rw [if_pos hh] at hpf
  refine ⟨?_, ?_, ?_⟩
  · rw [load_of_parse rd opts hp hne _ _ hpf]
    rfl
  · simp [Error.Is, duplicationError]
  · have hlit : ", more than once, " ++ "annotation key duplication" =
        ", more than once, annotation key duplication" := by decide
    simp only [duplicationError, Error.text, String.append_assoc, hlit]

/-- C4, amended, at `a = 1`, `b=2`, ` a=3`, `c`: the error names `a`, and the later entry
without `=` plays no part. -/
theorem loadManifestAnnotations_duplication_witness :
    LoadManifestAnnotations noFiles ⟨"", false, "", ["a = 1", "b=2", " a=3", "c"], []⟩ =
        .ok ⟨none, some (duplicationError (keyOf " a=3")), []⟩ ∧
      Error.Is (duplicationError (keyOf " a=3")) Error.errAnnotationDuplication = true ∧
      (duplicationError (keyOf " a=3")).text =
        "found annotation key, " ++ keyOf " a=3" ++
          ", more than once, annotation key duplication" :=
  loadManifestAnnotations_duplication noFiles
    ⟨"", false, "", ["a = 1", "b=2", " a=3", "c"], []⟩ 2 " a=3" rfl (by decide) (by decide)
    (by decide) (by decide)

/-- C5, as the claim states it, fails: `a=1`, `a=2`, `b` contains an entry without `=`,
yet the scan stops at the second `a`, and the error is the duplication error, not
`errAnnotationFormat`. -/
theorem loadManifestAnnotations_format_counterexample :
    hasEq "b" = false ∧
      LoadManifestAnnotations noFiles ⟨"", false, "", ["a=1", "a=2", "b"], []⟩ =
        .ok ⟨none, some (duplicationError "a"), []⟩ ∧
      duplicationError "a" ≠ Error.errAnnotationFormat := by
  decide

/-- C5, amended: with no annotations file, if the entry at position `i` has no `=` and no
entry before position `i` is offending (lacks `=` or repeats an earlier key), then
`LoadManifestAnnotations` returns `errAnnotationFormat` and a nil mapping, and
`parseAnnotationFlags` returns that error leaving the mapping it was given as it was (no
`$manifest` scope is created or replaced). -/
theorem loadManifestAnnotations_format (rd : FileReader) (opts : Packer) (i : Nat)
    (e : String) (hp : opts.AnnotationsFilePath = "")
    (he : opts.ManifestAnnotations[i]? = some e) (hh : hasEq e = false)
    (hlt : ∀ j, j < i → offending opts.ManifestAnnotations j = false) :
    LoadManifestAnnotations rd opts = .ok ⟨none, some Error.errAnnotationFormat, []⟩ ∧
      ∀ annotations : Option Annotations,
        parseAnnotationFlags opts.ManifestAnnotations annotations =
          .ok ⟨annotations, some Error.errAnnotationFormat⟩ := by
  have hne : opts.ManifestAnnotations ≠ [] := by
    intro h0
    rw [h0] at he
    simp at he
  have hi : offending opts.ManifestAnnotations i = true := by
    unfold offending
    rw [he]
    simp [hh]
  have hpf : ∀ annotations : Option Annotations,
      parseAnnotationFlags opts.ManifestAnnotations annotations =
        .ok ⟨annotations, some Error.errAnnotationFormat⟩ := by
    intro annotations
    have := parse_first opts.ManifestAnnotations annotations i e he hi hlt
    rw [if_neg (by simp [hh])] at this
    exact this
  refine ⟨?_, hpf⟩
  rw [load_of_parse rd opts hp hne _ _ (hpf (some []))]
  rfl

/-- C5, amended, at `a=1`, `b`, `a=2`. -/
theorem loadManifestAnnotations_format_witness :
    LoadManifestAnnotations noFiles ⟨"", false, "", ["a=1", "b", "a=2"], []⟩ =
        .ok ⟨none, some Error.errAnnotationFormat, []⟩ ∧
      ∀ annotations : Option Annotations,
        parseAnnotationFlags ["a=1", "b", "a=2"] annotations =
          .ok ⟨annotations, some Error.errAnnotationFormat⟩ :=
  loadManifestAnnotations_format noFiles ⟨"", false, "", ["a=1", "b", "a=2"], []⟩ 1 "b" rfl
    (by decide) (by decide) (by decide)

/-- C7: with a non-empty annotations file path and no raw entry, `LoadManifestAnnotations`
opens that file and nothing else; if `os.Open` fails it returns that error and a nil
mapping; if decoding fails it returns that error and a nil mapping; if decoding succeeds
it returns, with no error, exactly the mapping the decoder produced from the empty map. -/
theorem loadManifestAnnotations_file (rd : FileReader) (opts : Packer)
    (hp : opts.AnnotationsFilePath ≠ "") (hl : opts.ManifestAnnotations = []) :
    (∀ err, rd.Open opts.AnnotationsFilePath = .error err →
        LoadManifestAnnotations rd opts =
          .ok ⟨none, some err, [opts.AnnotationsFilePath]⟩) ∧
      (∀ file decoded err, rd.Open opts.AnnotationsFilePath = .ok file →
        rd.Decode file (some []) = (decoded, some err) →
        LoadManifestAnnotations rd opts =
          .ok ⟨none, some err, [opts.AnnotationsFilePath]⟩) ∧
      (∀ file decoded, rd.Open opts.AnnotationsFilePath = .ok file →
        rd.Decode file (some []) = (decoded, none) →
        LoadManifestAnnotations rd opts =
          .ok ⟨decoded, none, [opts.AnnotationsFilePath]⟩) := by
  refine ⟨?_, ?_, ?_⟩
  · intro err ho
    simp [LoadManifestAnnotations, hp, hl, decodeJSON, ho]
  · intro file decoded err ho hd
    simp [LoadManifestAnnotations, hp, hl, decodeJSON, ho, hd]
  · intro file decoded ho hd
    simp [LoadManifestAnnotations, hp, hl, decodeJSON, ho, hd]

/-- C7, on a file that decodes to `$manifest` with `a` mapped to `b`, and on a missing file. -/
theorem loadManifestAnnotations_file_witness :
    LoadManifestAnnotations oneFile ⟨"", false, "annotations.json", [], []⟩ =
        .ok ⟨some [("$manifest", [("a", "b")])], none, ["annotations.json"]⟩ ∧
      LoadManifestAnnotations noFiles ⟨"", false, "annotations.json", [], []⟩ =
        .ok ⟨none,
          some (Error.external "open annotations.json: no such file or directory"),
          ["annotations.json"]⟩ :=
  ⟨(loadManifestAnnotations_file oneFile ⟨"", false, "annotations.json", [], []⟩
      (by decide) rfl).2.2 _ _ rfl rfl,
    (loadManifestAnnotations_file noFiles ⟨"", false, "annotations.json", [], []⟩
      (by decide) rfl).1 _ rfl⟩

/-- C8: with no annotations file path and no raw entry, `LoadManifestAnnotations` returns
no error and an empty, non-nil mapping, and opens no file. -/
theorem loadManifestAnnotations_empty (rd : FileReader) (opts : Packer)
    (hp : opts.AnnotationsFilePath = "") (hl : opts.ManifestAnnotations = []) :
    LoadManifestAnnotations rd opts = .ok ⟨some [], none, []⟩ := by
  simp [LoadManifestAnnotations, hp, hl]

/-- C8, on a file system whose files would all decode to a non-empty mapping. -/
theorem loadManifestAnnotations_empty_witness :
    LoadManifestAnnotations oneFile ⟨"manifest.json", true, "", [], ["a.txt"]⟩ =
      .ok ⟨some [], none, []⟩ :=
  loadManifestAnnotations_empty oneFile ⟨"manifest.json", true, "", [], ["a.txt"]⟩ rfl rfl

/-- C10: `parseAnnotationFlags` is decided by the first offending entry, an entry being
offending if it has no `=` or if its trimmed key is the trimmed key of an earlier entry.
If no entry is offending, the call returns no error and sets the scope `$manifest` of the
mapping to the keys and values of the entries.  If the first offending entry is at
position `i`, the call returns `errAnnotationFormat` when that entry has no `=`, and
otherwise the error that wraps `errAnnotationDuplication` and reads `found annotation
key, K, more than once, annotation key duplication`, `K` being the trimmed key of that
entry; the mapping passed in is left as it was, and the result is the same whatever
entries follow position `i`.  Every error leaves the mapping as it was.  The key and the
value of an entry with `=` are the text before and the text after its first `=`, without
their leading and trailing white space. -/
theorem parseAnnotationFlags_first_offending (l : List String) :
    ((∀ i, offending l i = false) → ∀ m : Annotations,
        parseAnnotationFlags l (some m) =
          .ok ⟨some (GoMap.set m "$manifest" (l.map pairOf)), none⟩) ∧
      (∀ (i : Nat) (e : String), l[i]? = some e → offending l i = true →
        (∀ j, j < i → offending l j = false) →
        ∀ annotations : Option Annotations,
          parseAnnotationFlags l annotations =
            .ok ⟨annotations,
              some (if hasEq e = true then
                Error.wrapped ("found annotation key, " ++ keyOf e ++
                  ", more than once, annotation key duplication")
                  Error.errAnnotationDuplication
                else Error.errAnnotationFormat)⟩ ∧
          ∀ rest : List String,
            parseAnnotationFlags (l.take (i + 1) ++ rest) annotations =
              parseAnnotationFlags l annotations) ∧
      (∀ (annotations : Option Annotations) (r : FlagsResult),
        parseAnnotationFlags l annotations = .ok r → r.err ≠ none →
        r.annotations = annotations) ∧
      (∀ e ∈ l, hasEq e = true → IsEntryOf e (keyOf e) (valueOf e)) := by
  refine ⟨?_, ?_, ?_, fun e _ h => pairOf_isEntryOf e h⟩
  · intro h m
    have hname : annotationManifest = "$manifest" := by decide
    rw [parse_ok l m h, hname]
  swap
  · intro annotations r hr hne
    unfold parseAnnotationFlags at hr
    cases hloop : parseAnnotationFlags.loop l [] with
    | error e =>
      rw [hloop] at hr
      cases hr
      rfl
    | ok raw =>
      rw [hloop] at hr
      cases annotations with
      | none => cases hr
      | some m =>
        cases hr
        exact absurd rfl hne
  intro i e he hi hlt annotations
  have hil : i < l.length := (List.getElem?_eq_some_iff.mp he).1
  have hfirst := parse_first l annotations i e he hi hlt
  refine ⟨?_, ?_⟩
  · rw [hfirst, duplicationError_eq]
  · intro rest
    rw [hfirst]
    apply parse_first (l.take (i + 1) ++ rest) annotations i e
    · rw [List.getElem?_append_left (by rw [List.length_take]; omega),
        List.getElem?_take_of_lt (by omega)]
      exact he
    · rw [offending_take_append l rest i i hil (le_refl i)]
      exact hi
    · intro j hj
      rw [offending_take_append l rest i j hil (by omega)]
      exact hlt j hj

/-- C10, with a mapping that already holds a scope: at `a = 1`, `b=2`, ` a=3`, `c` the
first offending entry is ` a=3`, whose key `a` repeats that of `a = 1`, and the entry `c`
and whatever follows play no part; at `a=1`, `b`, `a=2`, `c=3` the first offending entry
is `b`, which has no `=`; at `a=1`, ` b = 2 ` no entry is offending. -/
theorem parseAnnotationFlags_first_offending_witness :
    parseAnnotationFlags ["a = 1", "b=2", " a=3", "c"] (some [("s", [("k", "v")])]) =
        .ok ⟨some [("s", [("k", "v")])],
          some (Error.wrapped
            "found annotation key, a, more than once, annotation key duplication"
            Error.errAnnotationDuplication)⟩ ∧
      (∀ rest : List String,
        parseAnnotationFlags (["a = 1", "b=2", " a=3"] ++ rest) (some [("s", [("k", "v")])]) =
          .ok ⟨some [("s", [("k", "v")])],
            some (Error.wrapped
              "found annotation key, a, more than once, annotation key duplication"
              Error.errAnnotationDuplication)⟩) ∧
      parseAnnotationFlags ["a=1", "b", "a=2", "c=3"] (some [("s", [("k", "v")])]) =
        .ok ⟨some [("s", [("k", "v")])], some Error.errAnnotationFormat⟩ ∧
      parseAnnotationFlags ["a=1", " b = 2 "] (some [("s", [("k", "v")])]) =
        .ok ⟨some [("s", [("k", "v")]), ("$manifest", [("a", "1"), ("b", "2")])], none⟩ :=
  have hdup := (parseAnnotationFlags_first_offending ["a = 1", "b=2", " a=3", "c"]).2.1 2
    " a=3" rfl (by decide) (by decide) (some [("s", [("k", "v")])])
  ⟨hdup.1.trans (by decide),
    fun rest => (hdup.2 rest).trans (hdup.1.trans (by decide)),
    ((parseAnnotationFlags_first_offending ["a=1", "b", "a=2", "c=3"]).2.1 1 "b" rfl
      (by decide) (by decide) (some [("s", [("k", "v")])])).1.trans (by decide),
    ((parseAnnotationFlags_first_offending ["a=1", " b = 2 "]).1
      (not_offending_of_nodup _ (by decide) (by decide)) [("s", [("k", "v")])]).trans
      (by decide)⟩

/-! ## The claim about `ExportManifest` -/

/-- C9, as the claim states it, fails: the store holds the blob `{}` and the descriptor
carries its digest and size, so the fetch succeeds; the file system refuses to open
`/manifest.json` for writing; `ExportManifest` returns the error of `os.WriteFile` and the
file does not hold the fetched bytes. -/
theorem exportManifest_counterexample :
    fetchEmptyJSON emptyJSON = .ok [123, 125] ∧
      (ExportManifest fetchEmptyJSON (writeFileDenying ["/manifest.json"])
        ⟨"/manifest.json", false, "", [], []⟩ emptyJSON ⟨[], []⟩).2 =
        some (Error.external "open /manifest.json: permission denied") ∧
      GoMap.get? (ExportManifest fetchEmptyJSON (writeFileDenying ["/manifest.json"])
        ⟨"/manifest.json", false, "", [], []⟩ emptyJSON ⟨[], []⟩).1.files
          "/manifest.json" ≠ some [123, 125] := by
  decide

/-- C9, amended: if `ManifestExportPath` is empty, `ExportManifest` returns success, does
not call the fetcher and leaves the file system as it was; otherwise it calls the fetcher
once; if the fetch fails, that error is returned and the file system is as it was; if the
fetch succeeds, the returned error and the file system are exactly those of
`os.WriteFile` called with `ManifestExportPath` and the fetched bytes, so that, when that
write succeeds, the result is success and the only change is that the file at
`ManifestExportPath` holds exactly the fetched bytes. -/
theorem exportManifest_frame (FetchAll : Descriptor → Outcome Error Bytes)
    (WriteFile : GoMap Bytes → String → Bytes → GoMap Bytes × Option Error)
    (opts : Packer) (desc : Descriptor) (w : World) :
    (opts.ManifestExportPath = "" →
        ExportManifest FetchAll WriteFile opts desc w = (w, none)) ∧
      (opts.ManifestExportPath ≠ "" → ∀ err, FetchAll desc = .error err →
        ExportManifest FetchAll WriteFile opts desc w =
          (⟨w.files, w.fetched ++ [desc]⟩, some err)) ∧
      (opts.ManifestExportPath ≠ "" → ∀ manifestBytes, FetchAll desc = .ok manifestBytes →
        ExportManifest FetchAll WriteFile opts desc w =
            (⟨(WriteFile w.files opts.ManifestExportPath manifestBytes).1,
                w.fetched ++ [desc]⟩,
              (WriteFile w.files opts.ManifestExportPath manifestBytes).2) ∧
          (WriteFile w.files opts.ManifestExportPath manifestBytes =
              (GoMap.set w.files opts.ManifestExportPath manifestBytes, none) →
            (ExportManifest FetchAll WriteFile opts desc w).2 = none ∧
            GoMap.get? (ExportManifest FetchAll WriteFile opts desc w).1.files
              opts.ManifestExportPath = some manifestBytes ∧
            ∀ name, name ≠ opts.ManifestExportPath →
              GoMap.get? (ExportManifest FetchAll WriteFile opts desc w).1.files name =
                GoMap.get? w.files name)) := by
  refine ⟨?_, ?_, ?_⟩
  · intro hp
    simp [ExportManifest, hp]
  · intro hp err hf
    simp [ExportManifest, hp, hf]
  · intro hp manifestBytes hf
    have hr : ExportManifest FetchAll WriteFile opts desc w =
        (⟨(WriteFile w.files opts.ManifestExportPath manifestBytes).1, w.fetched ++ [desc]⟩,
          (WriteFile w.files opts.ManifestExportPath manifestBytes).2) := by
      simp [ExportManifest, hp, hf]
    refine ⟨hr, ?_⟩
    intro hw
    rw [hr, hw]
    refine ⟨rfl, ?_, ?_⟩
    · exact GoMap.get?_set_self _ _ _
    · intro name hn
      exact GoMap.get?_set_of_ne _ _ _ _ hn

/-- C9, amended, on a file system with two files and a store that holds the blob `{}`:
with the descriptor of that blob and a write that succeeds, the file `m.json` is
overwritten with the fetched bytes and `other` keeps its content; with a descriptor the
store does not hold, the fetch error is returned and no file changes; with an empty path
nothing happens. -/
theorem exportManifest_frame_witness :
    ((ExportManifest fetchEmptyJSON (writeFileDenying [])
        ⟨"m.json", false, "", [], []⟩ emptyJSON
        ⟨[("other", [1]), ("m.json", [0])], []⟩).2 = none ∧
      GoMap.get? (ExportManifest fetchEmptyJSON (writeFileDenying [])
        ⟨"m.json", false, "", [], []⟩ emptyJSON
        ⟨[("other", [1]), ("m.json", [0])], []⟩).1.files "m.json" = some [123, 125] ∧
      GoMap.get? (ExportManifest fetchEmptyJSON (writeFileDenying [])
        ⟨"m.json", false, "", [], []⟩ emptyJSON
        ⟨[("other", [1]), ("m.json", [0])], []⟩).1.files "other" = some [1]) ∧
      ExportManifest fetchEmptyJSON (writeFileDenying [])
        ⟨"m.json", false, "", [], []⟩ ⟨"application/json", "sha256:00", 2⟩
        ⟨[("other", [1]), ("m.json", [0])], []⟩ =
        (⟨[("other", [1]), ("m.json", [0])], [⟨"application/json", "sha256:00", 2⟩]⟩,
          some (Error.external "sha256:00: not found")) ∧
      ExportManifest fetchEmptyJSON (writeFileDenying [])
        ⟨"", false, "", [], []⟩ emptyJSON ⟨[("other", [1]), ("m.json", [0])], []⟩ =
        (⟨[("other", [1]), ("m.json", [0])], []⟩, none) :=
  have h := ((exportManifest_frame fetchEmptyJSON (writeFileDenying [])
    ⟨"m.json", false, "", [], []⟩ emptyJSON
    ⟨[("other", [1]), ("m.json", [0])], []⟩).2.2 (by decide) [123, 125] (by decide)).2
      (by decide)
  ⟨⟨h.1, h.2.1, (h.2.2 "other" (by decide)).trans (by decide)⟩,
    ((exportManifest_frame fetchEmptyJSON (writeFileDenying [])
      ⟨"m.json", false, "", [], []⟩ ⟨"application/json", "sha256:00", 2⟩
      ⟨[("other", [1]), ("m.json", [0])], []⟩).2.1 (by decide)
        (Error.external "sha256:00: not found") (by decide)).trans (by decide),
    (exportManifest_frame fetchEmptyJSON (writeFileDenying [])
      ⟨"", false, "", [], []⟩ emptyJSON ⟨[("other", [1]), ("m.json", [0])], []⟩).1 rfl⟩

/-! ## The paging loop of `listRepository` -/

theorem ceilDiv_zero (P : Nat) (hP : 1 ≤ P) : ceilDiv 0 P = 0 := by
  unfold ceilDiv
  apply Nat.div_eq_of_lt
  omega

theorem ceilDiv_step (n P : Nat) (hP : 1 ≤ P) (hn : 0 < n) :
    ceilDiv n P = ceilDiv (n - min P n) P + 1 := by
  unfold ceilDiv
  by_cases h : P ≤ n
  · have h1 : n + P - 1 = (n - min P n + P - 1) + P := by omega
    rw [h1, Nat.add_div_right _ (by omega)]
  · have h1 : n - min P n + P - 1 = P - 1 := by omega
    have h2 : n + P - 1 = (n - 1) + P := by omega
    rw [h1, h2, Nat.add_div_right _ (by omega), Nat.div_eq_of_lt (by omega),
      Nat.div_eq_of_lt (by omega)]

theorem ceilDiv_le (n P : Nat) (hP : 1 ≤ P) : ceilDiv n P ≤ n := by
  unfold ceilDiv
  rw [Nat.div_le_iff_le_mul_add_pred (by omega)]
  have : n ≤ P * n := Nat.le_mul_of_pos_left n (by omega)
  omega

theorem take_append_drop_length (X : List String) (P : Nat) :
    X.take P ++ X.drop (X.take P).length = X := by
  by_cases h : P ≤ X.length
  · rw [List.length_take, Nat.min_eq_left h, List.take_append_drop]
  · have h2 : X.length ≤ P := by omega
    rw [List.take_of_length_le h2, List.drop_length, List.append_nil]

theorem pagingLoop_succ_empty (P : Nat) (L : List String) (fuel c : Nat)
    (h : (Pagination P L c).1 = []) :
    pagingLoop P L (fuel + 1) c = some ([[]], c) := by
  have h2 : (Pagination P L c).2 = c := by
    have : (Pagination P L c).2 = c + (Pagination P L c).1.length := rfl
    rw [this, h]; rfl
  simp only [pagingLoop, h, h2]
  rfl

theorem pagingLoop_succ_nonempty (P : Nat) (L : List String) (fuel c : Nat)
    (h : (Pagination P L c).1 ≠ []) :
    pagingLoop P L (fuel + 1) c =
      match pagingLoop P L fuel (Pagination P L c).2 with
      | none => none
      | some (pages, key) => some ((Pagination P L c).1 :: pages, key) := by
  have hl : ¬ (Pagination P L c).1.length = 0 := by
    intro h0
    exact h (List.length_eq_zero.mp h0)
  simp only [pagingLoop, hl, if_false]

/-- The paging loop entered with any cursor `c`: it needs exactly
`⌈(N - c)/P⌉ + 1` turns, its non-empty pages are the names from position `c` on, and it
leaves the cursor at `max c N`. -/
theorem pagingLoop_from (P : Nat) (hP : 1 ≤ P) (L : List String) : ∀ fuel c : Nat,
    (fuel ≤ ceilDiv (L.length - c) P → pagingLoop P L fuel c = none) ∧
      (ceilDiv (L.length - c) P < fuel →
        ∃ chunks : List (List String),
          pagingLoop P L fuel c = some (chunks ++ [[]], max c L.length) ∧
          chunks.length = ceilDiv (L.length - c) P ∧
          (∀ p ∈ chunks, p ≠ [] ∧ p.length ≤ P) ∧
          chunks.flatten = L.drop c) := by
  intro fuel
  induction fuel with
  | zero =>
    intro c
    exact ⟨fun _ => rfl, fun h => absurd h (Nat.not_lt_zero _)⟩
  | succ fuel ih =>
    intro c
    by_cases hpage : (Pagination P L c).1 = []
    · have hlen : L.length ≤ c := by
        have h0 : ((L.drop c).take P).length = 0 := by
          have : (L.drop c).take P = [] := hpage
          rw [this]; rfl
        rw [List.length_take, List.length_drop] at h0
        omega
      have hz : ceilDiv (L.length - c) P = 0 := by
        rw [Nat.sub_eq_zero_of_le hlen]; exact ceilDiv_zero P hP
      rw [hz, pagingLoop_succ_empty P L fuel c hpage]
      refine ⟨fun h => absurd h (by omega), fun _ => ⟨[], ?_, rfl, ?_, ?_⟩⟩
      · rw [Nat.max_eq_left hlen]; rfl
      · intro p hp; simp at hp
      · rw [List.drop_of_length_le hlen]; rfl
    · have hplen : (Pagination P L c).1.length = min P (L.length - c) := by
        simp [Pagination, List.length_take, List.length_drop]
      have hpos : 0 < min P (L.length - c) := by
        rw [← hplen]
        exact List.length_pos.mpr hpage
      have hlt : c < L.length := by omega
      have hnext : (Pagination P L c).2 = c + min P (L.length - c) := by
        simp [Pagination, List.length_take, List.length_drop]
      have hsub : L.length - (c + min P (L.length - c)) =
          (L.length - c) - min P (L.length - c) := by omega
      have hceil := ceilDiv_step (L.length - c) P hP (by omega)
      rw [pagingLoop_succ_nonempty P L fuel c hpage, hnext]
      obtain ⟨ih1, ih2⟩ := ih (c + min P (L.length - c))
      rw [hsub] at ih1 ih2
      constructor
      · intro hf
        rw [ih1 (by omega)]
      · intro hf
        obtain ⟨chunks, hrun, hcl, hcne, hcf⟩ := ih2 (by omega)
        refine ⟨(Pagination P L c).1 :: chunks, ?_, ?_, ?_, ?_⟩
        · rw [hrun]
          have hmax : max (c + min P (L.length - c)) L.length = max c L.length := by omega
          simp [hmax]
        · simp [hcl, hceil]
        · intro p hp
          rcases List.mem_cons.mp hp with h1 | h1
          · rw [h1]
            exact ⟨hpage, by rw [hplen]; exact Nat.min_le_left _ _⟩
          · exact hcne p h1
        · rw [List.flatten_cons, hcf]
          have hd : L.drop (c + min P (L.length - c)) =
              (L.drop c).drop ((L.drop c).take P).length := by
            rw [List.drop_drop, List.length_take, List.length_drop]
          rw [hd]
          exact take_append_drop_length (L.drop c) P

/-- C6: the paging loop of `listRepository`, entered with cursor 0 on a list of `N` names
and with a page size `P ≥ 1`, is still running after `⌈N/P⌉` turns and has ended after
`⌈N/P⌉ + 1` turns; the pages it obtained are `⌈N/P⌉` non-empty pages, of at most `P` names
each, followed by one empty page; the non-empty pages put end to end are the list itself;
and the cursor ends at `N`. -/
theorem pagingLoop_exhaustive (P : Nat) (hP : 1 ≤ P) (L : List String) (fuel : Nat) :
    (fuel ≤ ceilDiv L.length P → pagingLoop P L fuel 0 = none) ∧
      (ceilDiv L.length P < fuel →
        ∃ chunks : List (List String),
          pagingLoop P L fuel 0 = some (chunks ++ [[]], L.length) ∧
          chunks.length = ceilDiv L.length P ∧
          (∀ p ∈ chunks, p ≠ [] ∧ p.length ≤ P) ∧
          chunks.flatten = L) := by
  have h := pagingLoop_from P hP L fuel 0
  simpa using h

/-- C6, on five names with pages of two: three non-empty pages and an empty one, after
four turns and not before. -/
theorem pagingLoop_exhaustive_witness :
    pagingLoop 2 ["a", "b", "c", "d", "e"] 3 0 = none ∧
      (∃ chunks : List (List String),
        pagingLoop 2 ["a", "b", "c", "d", "e"] 4 0 =
          some (chunks ++ [[]], ["a", "b", "c", "d", "e"].length) ∧
        chunks.length = ceilDiv ["a", "b", "c", "d", "e"].length 2 ∧
        (∀ p ∈ chunks, p ≠ [] ∧ p.length ≤ 2) ∧
        chunks.flatten = ["a", "b", "c", "d", "e"]) ∧
      pagingLoop 2 ["a", "b", "c", "d", "e"] 4 0 =
        some ([["a", "b"], ["c", "d"], ["e"], []], 5) :=
  ⟨(pagingLoop_exhaustive 2 (by decide) ["a", "b", "c", "d", "e"] 3).1 (by decide),
    (pagingLoop_exhaustive 2 (by decide) ["a", "b", "c", "d", "e"] 4).2 (by decide),
    by decide⟩

/-! ## `listRepository` over several batches -/

/-- One call of the callback, entered with any cursor: it prints the filtered and bounded
names of the batch from the position of the cursor on, and leaves the cursor at the
larger of its old value and the number of those names. -/
theorem callback_from (P : Nat) (hP : 1 ≤ P) (fuel : Nat) (opts : repositoryOptions)
    (repos : List String)
    (hf : ceilDiv ((Cut (Filter repos opts.startwith opts.endwith opts.contains)
      opts.first opts.skip).length - opts.paginationKey) P < fuel) :
    listRepository.callback fuel P opts repos =
      some ((Cut (Filter repos opts.startwith opts.endwith opts.contains)
          opts.first opts.skip).drop opts.paginationKey,
        { opts with paginationKey := (max opts.paginationKey
            (Cut (Filter repos opts.startwith opts.endwith opts.contains)
              opts.first opts.skip).length) }) := by
  obtain ⟨chunks, hrun, _, _, hflat⟩ :=
    (pagingLoop_from P hP (Cut (Filter repos opts.startwith opts.endwith opts.contains)
      opts.first opts.skip) fuel opts.paginationKey).2 hf
  simp only [listRepository.callback, hrun]
  simp [hflat]

/-- C1, at the input of the claim: on the two batches `a`, `b` and `c`, `d`, with no
filter, `first = 1000` and `skip = 0`, `listRepository` prints `a` and `b` only, for every
page size `P ≥ 1` and as soon as the paging loops are given the three turns they need: the
cursor left at 2 by the first batch is the cursor the second batch starts from.  The
filtered and bounded batches put end to end are `a`, `b`, `c`, `d`. -/
theorem listRepository_second_batch (P : Nat) (hP : 1 ≤ P) (fuel : Nat) (hf : 3 ≤ fuel) :
    listRepository fuel P (.ok ⟨[["a", "b"], ["c", "d"]], none⟩) (plainOptions 1000 0) =
        some (["a", "b"], none) ∧
      ([["a", "b"], ["c", "d"]].map fun repos =>
        Cut (Filter repos (plainOptions 1000 0).startwith (plainOptions 1000 0).endwith
          (plainOptions 1000 0).contains) (plainOptions 1000 0).first
          (plainOptions 1000 0).skip).flatten = ["a", "b", "c", "d"] := by
  refine ⟨?_, by decide⟩
  have hc1 : Cut (Filter ["a", "b"] (plainOptions 1000 0).startwith
      (plainOptions 1000 0).endwith (plainOptions 1000 0).contains)
      (plainOptions 1000 0).first (plainOptions 1000 0).skip = ["a", "b"] := by decide
  have h1 := callback_from P hP fuel (plainOptions 1000 0) ["a", "b"] (by
    rw [hc1]
    have := ceilDiv_le (["a", "b"].length - (plainOptions 1000 0).paginationKey) P hP
    have h2 : ["a", "b"].length - (plainOptions 1000 0).paginationKey = 2 := by decide
    omega)
  rw [hc1] at h1
  have hk : max (plainOptions 1000 0).paginationKey ["a", "b"].length = 2 := by decide
  rw [hk] at h1
  have hc2 : ∀ o : repositoryOptions, o.startwith = "" → o.endwith = "" → o.contains = "" →
      o.first = 1000 → o.skip = 0 →
      Cut (Filter ["c", "d"] o.startwith o.endwith o.contains) o.first o.skip = ["c", "d"] := by
    intro o a b c d e
    rw [a, b, c, d, e]
    decide
  have hc2k := hc2 { plainOptions 1000 0 with paginationKey := 2 } rfl rfl rfl rfl rfl
  have h2 := callback_from P hP fuel { plainOptions 1000 0 with paginationKey := 2 }
    ["c", "d"] (by
      rw [hc2k]
      have h3 : ["c", "d"].length -
          ({ plainOptions 1000 0 with paginationKey := 2 } : repositoryOptions).paginationKey
            = 0 := by decide
      rw [h3, ceilDiv_zero P hP]
      omega)
  rw [hc2k] at h2
  simp only [listRepository, listRepository.batches, h1, h2]
  rfl

/-- C1, with pages of one name and of a thousand names. -/
theorem listRepository_second_batch_witness :
    (listRepository 3 1 (.ok ⟨[["a", "b"], ["c", "d"]], none⟩) (plainOptions 1000 0) =
        some (["a", "b"], none) ∧
      ([["a", "b"], ["c", "d"]].map fun repos =>
        Cut (Filter repos (plainOptions 1000 0).startwith (plainOptions 1000 0).endwith
          (plainOptions 1000 0).contains) (plainOptions 1000 0).first
          (plainOptions 1000 0).skip).flatten = ["a", "b", "c", "d"]) ∧
      listRepository 3 1000 (.ok ⟨[["a", "b"], ["c", "d"]], none⟩) (plainOptions 1000 0) =
        some (["a", "b"], none) :=
  ⟨listRepository_second_batch 1 (by decide) 3 (by decide),
    (listRepository_second_batch 1000 (by decide) 3 (by decide)).1⟩

end Oras